import Mathlib

/- Shallow embedding of the PrivacyLens frame-anonymization pipeline.

   Embedded source:
   - src/deface_pkg/utils.py        : scale_bb; draw_det with its solid / blur / img /
                                      mosaic / none branches.
   - src/deface_integration.py      : DefaceIntegration.anonymize_frame (truncate
                                      detector boxes, scale, clip, draw) and
                                      DefaceIntegration.process_frame (copy, mask the
                                      copy, return the copy).
   - src/face_anonymizer_videos.py  : the frame loop of VideoProcessingThread.run
                                      (cooperative cancellation flag, frame writing,
                                      resource release, finish message) and the batch
                                      driver FaceAnonymizationVideoApp.batch_video_finished.

   Modelling conventions.  A frame buffer is a total function from (row, col) to a
   pixel value; one integer stands for the whole (B,G,R) triple, which no claim ever
   splits.  Python floats are modelled by exact rationals; every concrete input used in a
   counterexample or witness below is dyadic with small numerators, so the modelled
   arithmetic coincides with IEEE double arithmetic there.  numpy astype(int) truncates
   toward zero; the Python floor division a // b is Int.fdiv.  External library
   primitives whose pixel values are irrelevant to every claim (cv2.blur, cv2.putText,
   cv2.resize of the overlay image) enter as function parameters, so each theorem holds
   for every possible behaviour of those primitives; the primitives that decide claims
   (cv2.rectangle, numpy slice assignment, skimage.draw.ellipse) are embedded concretely. -/

namespace PrivacyLens

/-- A frame buffer: the pixel value at (row, col). -/
def Img : Type := Int → Int → Int

/-- numpy np.round: round to the nearest integer, ties to even. -/
def roundHalfEven (q : ℚ) : Int :=
  if q - Int.floor q < 1 / 2 then Int.floor q
  else if 1 / 2 < q - Int.floor q then Int.floor q + 1
  else if Int.floor q % 2 = 0 then Int.floor q else Int.floor q + 1

/-- Round to the nearest integer, ties away from zero (the rounding the spec names). -/
def roundHalfAway (q : ℚ) : Int :=
  if q - Int.floor q < 1 / 2 then Int.floor q
  else if 1 / 2 < q - Int.floor q then Int.floor q + 1
  else if q < 0 then Int.floor q else Int.floor q + 1

/-- src/deface_pkg/utils.py, scale_bb: symmetric box expansion followed by np.round and
astype(int).  The sequential lets mirror the Python augmented assignments. -/
def scale_bb (x1 y1 x2 y2 : ℚ) (mask_scale : ℚ) : Int × Int × Int × Int :=
  let s := mask_scale - 1
  let h := y2 - y1
  let w := x2 - x1
  let y1' := y1 - h * s
  let y2' := y2 + h * s
  let x1' := x1 - w * s
  let x2' := x2 + w * s
  (roundHalfEven x1', roundHalfEven y1', roundHalfEven x2', roundHalfEven y2')

/-- Modelled from the spec: scaleBox(box, maskScale) with h = y2-y1, w = x2-x1,
s = maskScale - 1.0, new box (x1 - w*s, y1 - h*s, x2 + w*s, y2 + h*s), each coordinate
rounded to the nearest integer using round-half-away-from-zero. -/
def scaleBoxSpec (x1 y1 x2 y2 ms : ℚ) : Int × Int × Int × Int :=
  (roundHalfAway (x1 - (x2 - x1) * (ms - 1)), roundHalfAway (y1 - (y2 - y1) * (ms - 1)),
   roundHalfAway (x2 + (x2 - x1) * (ms - 1)), roundHalfAway (y2 + (y2 - y1) * (ms - 1)))

/-- The spec's scaleBox formula, but with the rounding the code actually performs
(np.round: nearest integer, ties to even). -/
def scaleBoxHalfEven (x1 y1 x2 y2 ms : ℚ) : Int × Int × Int × Int :=
  (roundHalfEven (x1 - (x2 - x1) * (ms - 1)), roundHalfEven (y1 - (y2 - y1) * (ms - 1)),
   roundHalfEven (x2 + (x2 - x1) * (ms - 1)), roundHalfEven (y2 + (y2 - y1) * (ms - 1)))

/-- src/deface_integration.py lines 45-46, the clipping step of anonymize_frame:
y1, y2 = max(0, y1), min(H - 1, y2) and x1, x2 = max(0, x1), min(W - 1, x2).
Result in (x1, y1, x2, y2) order.  Note each coordinate is clamped on one side only. -/
def clipCoords (W H x1 y1 x2 y2 : Int) : Int × Int × Int × Int :=
  (max 0 x1, max 0 y1, min (W - 1) x2, min (H - 1) y2)

/-- cv2.rectangle with thickness -1 on a W x H image: fills the up-right rectangle whose
opposite corners are (ax, ay) and (bx, by), corners inclusive, in either order, clipped
to the image.  Points are (col, row) as in OpenCV. -/
def rectFill (W H : Int) (f : Img) (ax ay bx bY : Int) (color : Int) : Img :=
  fun i j =>
    if 0 ≤ i ∧ i < H ∧ 0 ≤ j ∧ j < W ∧
       min ay bY ≤ i ∧ i ≤ max ay bY ∧ min ax bx ≤ j ∧ j ≤ max ax bx
    then color else f i j

/-- Python slice normalization for frame[a:b] over an axis of length n (step 1):
negative endpoints count from the end, then both are clamped into [0, n].
The selected indices are start ≤ idx < stop. -/
def sliceIdx (n a b : Int) : Int × Int :=
  (if a < 0 then max 0 (n + a) else min a n,
   if b < 0 then max 0 (n + b) else min b n)

/-- skimage.draw.ellipse (h.fdiv 2, w.fdiv 2, h.fdiv 2, w.fdiv 2) membership: the set of
integer pixel coordinates strictly inside the ellipse, i.e. with
((i - r)/r)^2 + ((j - c)/c)^2 < 1 for r = h.fdiv 2, c = w.fdiv 2.  A zero radius makes
the numpy float division produce inf or nan, so the comparison with 1 fails and the
pixel set is empty; the two nonzero guards reproduce that. -/
def insideEllipse (h w i j : Int) : Prop :=
  h.fdiv 2 ≠ 0 ∧ w.fdiv 2 ≠ 0 ∧
    ((((i - h.fdiv 2 : Int) : ℚ) / ((h.fdiv 2 : Int) : ℚ)) ^ 2 +
     (((j - w.fdiv 2 : Int) : ℚ) / ((w.fdiv 2 : Int) : ℚ)) ^ 2 < 1)

instance (h w i j : Int) : Decidable (insideEllipse h w i j) :=
  inferInstanceAs (Decidable (_ ∧ _ ∧ _))

/-- Modelled from the spec: the quadratic form of the claim's inscribed ellipse,
"centered in the region, semi-axes equal to half the region extents" — center exactly
(h/2, w/2) and semi-axes exactly (h/2, w/2) as rationals, evaluated at the relative
pixel (i, j); the pixel is strictly outside that ellipse when the form exceeds 1.  For
even extents this coincides with the ellipse the code draws (insideEllipse, floored
center and radii), but for odd extents the two differ. -/
def specEllipseForm (h w i j : Int) : ℚ :=
  (((i : ℚ) - (h : ℚ) / 2) / ((h : ℚ) / 2)) ^ 2 +
  (((j : ℚ) - (w : ℚ) / 2) / ((w : ℚ) / 2)) ^ 2

/-- Python range(a, b, step) for a positive step, via structural fuel; pyRange supplies
fuel (b - a).toNat, enough because each iteration advances by at least one. -/
def pyRangeAux (fuel : Nat) (a b step : Int) : List Int :=
  match fuel with
  | 0 => []
  | f + 1 => if a < b then a :: pyRangeAux f (a + step) b step else []

def pyRange (a b step : Int) : List Int :=
  pyRangeAux (b - a).toNat a b step

/-- One mosaic cell of draw_det: pt1 = (x, y), pt2 = (min(x2, x + ms - 1),
min(y2, y + ms - 1)), color read from the current frame at (y, x), then a filled
cv2.rectangle. -/
def mosaicCell (W H x2 y2 ms y : Int) (g : Img) (x : Int) : Img :=
  rectFill W H g x y (min x2 (x + ms - 1)) (min y2 (y + ms - 1)) (g y x)

/-- The inner mosaic loop: for x in range(x1, x2, mosaicsize). -/
def mosaicRow (W H x1 x2 y2 ms y : Int) (g : Img) : Img :=
  (pyRange x1 x2 ms).foldl (mosaicCell W H x2 y2 ms y) g

/-- The mosaic branch of draw_det: for y in range(y1, y2, mosaicsize), inner loop over x. -/
def mosaicApply (W H : Int) (frame : Img) (x1 y1 x2 y2 ms : Int) : Img :=
  (pyRange y1 y2 ms).foldl (fun g y => mosaicRow W H x1 x2 y2 ms y g) frame

/-- The replacewith strategies of draw_det. -/
inductive Method
  | solid
  | blur
  | img
  | mosaic
  | none
deriving DecidableEq

/-- src/deface_pkg/utils.py, draw_det.  blurFn stands for cv2.blur (arguments: the
region-of-interest pixels in relative coordinates and the kernel size pair
(abs(x2-x1) // 2, abs(y2-y1) // 2)); putTextFn stands for cv2.putText at anchor
(x1 + 0, y1 - 20); resizedOverlay stands for cv2.resize(replaceimg, (x2-x1, y2-y1)) in
the three-channel case (the RGBA alpha-compositing variant of the img branch is not
modelled: no claim exercises ImageOverlay).  In the blur branch, roibox is a numpy view
of the frame, so writing the ellipse pixels into it already writes the frame, and the
final whole-slice copy-back is value-level identity; the embedding therefore writes
blurred values exactly at the slice pixels selected by skimage.draw.ellipse. -/
def draw_det (W H : Int)
    (blurFn : (Int → Int → Int) → Int × Int → Int → Int → Int)
    (putTextFn : Img → ℚ → Int × Int → Img)
    (resizedOverlay : Int → Int → Int)
    (frame : Img) (score : ℚ) (det_idx : Nat) (x1 y1 x2 y2 : Int)
    (replacewith : Method) (ellipse : Bool) (draw_scores : Bool)
    (ovcolor : Int) (mosaicsize : Int) : Img :=
  let masked : Img :=
    match replacewith with
    | Method.solid => rectFill W H frame x1 y1 x2 y2 ovcolor
    | Method.blur =>
      let ys := sliceIdx H y1 y2
      let xs := sliceIdx W x1 x2
      let roi : Int → Int → Int := fun i j => frame (ys.1 + i) (xs.1 + j)
      let blurred := blurFn roi ((|x2 - x1|).fdiv 2, (|y2 - y1|).fdiv 2)
      if ellipse then
        fun i j =>
          if ys.1 ≤ i ∧ i < ys.2 ∧ xs.1 ≤ j ∧ j < xs.2 ∧
             insideEllipse (y2 - y1) (x2 - x1) (i - ys.1) (j - xs.1)
          then blurred (i - ys.1) (j - xs.1) else frame i j
      else
        fun i j =>
          if ys.1 ≤ i ∧ i < ys.2 ∧ xs.1 ≤ j ∧ j < xs.2
          then blurred (i - ys.1) (j - xs.1) else frame i j
    | Method.img =>
      let ys := sliceIdx H y1 y2
      let xs := sliceIdx W x1 x2
      fun i j =>
        if ys.1 ≤ i ∧ i < ys.2 ∧ xs.1 ≤ j ∧ j < xs.2
        then resizedOverlay (i - ys.1) (j - xs.1) else frame i j
    | Method.mosaic => mosaicApply W H frame x1 y1 x2 y2 mosaicsize
    | Method.none => frame
  if draw_scores then putTextFn masked score (x1 + 0, y1 - 20) else masked

/-- One detector output row: (x1, y1, x2, y2, score) as floats. -/
def Det : Type := ℚ × ℚ × ℚ × ℚ × ℚ

/-- numpy astype(int): truncation toward zero. -/
def ratTrunc (q : ℚ) : Int :=
  q.num.tdiv (q.den : Int)

/-- The per-detection geometry of DefaceIntegration.anonymize_frame: truncate the float
box to ints, expand with scale_bb, clip with clipCoords.  Result (x1, y1, x2, y2). -/
def detRegion (W H : Int) (mask_scale : ℚ) (det : Det) : Int × Int × Int × Int :=
  let b := scale_bb (ratTrunc det.1 : Int) (ratTrunc det.2.1 : Int)
      (ratTrunc det.2.2.1 : Int) (ratTrunc det.2.2.2.1 : Int) mask_scale
  clipCoords W H b.1 b.2.1 b.2.2.1 b.2.2.2

/-- src/deface_integration.py lines 38-54, DefaceIntegration.anonymize_frame: for each
detection, scale and clip the box and call draw_det unconditionally (there is no
skip of zero-area or inverted regions). -/
def anonymize_frame (W H : Int)
    (blurFn : (Int → Int → Int) → Int × Int → Int → Int → Int)
    (putTextFn : Img → ℚ → Int × Int → Img)
    (resizedOverlay : Int → Int → Int)
    (dets : List Det) (frame : Img) (mask_scale : ℚ) (replacewith : Method)
    (ellipse : Bool) (draw_scores : Bool) (ovcolor : Int) (mosaicsize : Int) : Img :=
  (dets.enum.foldl (fun f p =>
    let r := detRegion W H mask_scale p.2
    draw_det W H blurFn putTextFn resizedOverlay f p.2.2.2.2.2 p.1
      r.1 r.2.1 r.2.2.1 r.2.2.2 replacewith ellipse draw_scores ovcolor mosaicsize)
    frame)

/-- src/deface_integration.py lines 163-190, DefaceIntegration.process_frame, with
Python buffer identity made explicit: the store is the list of live frame buffers and a
frame reference is an index into it.  frame.copy() appends a fresh buffer holding the
same pixels; anonymize_frame mutates that copy in place (store slot overwrite); the
returned reference is the copy's index, never the caller's.  The external CenterFace
call (and the detection_scale branch around it) only produces dets and never writes a
frame buffer, so the detections enter as an argument. -/
def process_frame (W H : Int)
    (blurFn : (Int → Int → Int) → Int × Int → Int → Int → Int)
    (putTextFn : Img → ℚ → Int × Int → Img)
    (resizedOverlay : Int → Int → Int)
    (store : List Img) (frameRef : Nat) (dets : List Det)
    (mask_scale : ℚ) (replacewith : Method) (ellipse draw_scores : Bool)
    (ovcolor mosaicsize : Int) : List Img × Nat :=
  let frame := store.getD frameRef (fun _ _ => 0)
  let original_frame := frame
  let store1 := store ++ [original_frame]
  let oRef := store.length
  let masked := anonymize_frame W H blurFn putTextFn resizedOverlay dets original_frame
      mask_scale replacewith ellipse draw_scores ovcolor mosaicsize
  (store1.set oRef masked, oRef)

/-- The message VideoProcessingThread.run emits through processing_finished.  The
cancellation break falls through to the same success epilogue, so a cancelled run also
emits videoCompleted ("Video processing completed"); a per-frame exception emits
processingFailed ("Processing failed"). -/
inductive FinishMsg
  | videoCompleted
  | processingFailed
deriving DecidableEq

/-- Observable outcome of one VideoProcessingThread.run execution. -/
structure RunResult where
  framesWritten : Nat
  msg : FinishMsg
  stoppedLogged : Bool
  readerClosed : Bool
  writerClosed : Bool
deriving DecidableEq

/-- The frame loop of VideoProcessingThread.run: each iteration reads self.is_running
before detecting, masking and writing the pulled frame; a false flag breaks out.
isRunning c is the value the check reads when c frames have been written so far.
Returns (frames written, whether the cancellation break was taken). -/
def videoLoop (isRunning : Nat → Bool) : Nat → Nat → Nat × Bool
  | 0, c => (c, false)
  | r + 1, c => if isRunning c then videoLoop isRunning r (c + 1) else (c, true)

/-- VideoProcessingThread.run around the loop: after the loop (broken or exhausted) the
code always runs reader.close(), writer.close() and the success epilogue, so the finish
message is videoCompleted on both paths; only a log line records a user stop. -/
def videoRun (totalFrames : Nat) (isRunning : Nat → Bool) : RunResult :=
  let lr := videoLoop isRunning totalFrames 0
  ⟨lr.1, FinishMsg.videoCompleted, lr.2, true, true⟩

/-- Batch list item colour set by batch_video_finished. -/
inductive JobMark
  | pending
  | success
  | failed
deriving DecidableEq

/-- FaceAnonymizationVideoApp.batch_video_finished: the item turns green exactly when
the finish message contains "completed", red otherwise. -/
def batchClassify (m : FinishMsg) : JobMark :=
  if m = FinishMsg.videoCompleted then JobMark.success else JobMark.failed

/-- Point update of the per-job marks. -/
def setMark (marks : Nat → JobMark) (i : Nat) (v : JobMark) : Nat → JobMark :=
  fun j => if j = i then v else marks j

/-- The sequential batch driver with cancellation never requested (is_processing stays
true): after each job finishes, batch_video_finished marks it from its outcome,
increments current_batch_index and starts the next job until the index reaches the
count.  outcomes i is the finish message job i's run ends with. -/
def batchLoop (outcomes : Nat → FinishMsg) : Nat → Nat → (Nat → JobMark) → Nat → JobMark
  | 0, _, marks => marks
  | r + 1, idx, marks =>
    batchLoop outcomes r (idx + 1) (setMark marks idx (batchClassify (outcomes idx)))

def batchRun (outcomes : Nat → FinishMsg) (count : Nat) : Nat → JobMark :=
  batchLoop outcomes count 0 (fun _ => JobMark.pending)

/- ------------------------------------------------------------------ theorems -/

theorem roundHalfEven_intCast (n : Int) : roundHalfEven (n : ℚ) = n := by
  simp [roundHalfEven]

theorem sliceIdx_of_valid (n a b : Int) (h0 : 0 ≤ a) (hab : a ≤ b) (hb : b ≤ n) :
    sliceIdx n a b = (a, b) := by
  simp only [sliceIdx]
  rw [if_neg (by omega), if_neg (by omega), min_eq_left (by omega), min_eq_left hb]

/-- C9: scaling a box with maskScale = 1.0 is the identity on integer boxes. -/
theorem C9_scale_identity (x1 y1 x2 y2 : Int) :
    scale_bb (x1 : ℚ) (y1 : ℚ) (x2 : ℚ) (y2 : ℚ) 1 = (x1, y1, x2, y2) := by
  simp [scale_bb, roundHalfEven_intCast]

unseal Rat.add Rat.mul Rat.sub Rat.inv in
/-- C3 counterexample: on the box (0,0,1,1) with maskScale = 3/2 the code (np.round)
sends x1 = -1/2 to 0 (ties to even) while the claimed round-half-away-from-zero sends it
to -1, so scale_bb differs from the spec formula at this input. -/
theorem C3_counterexample :
    scale_bb 0 0 1 1 (3 / 2 : ℚ) = (0, 0, 2, 2) ∧
    scaleBoxSpec 0 0 1 1 (3 / 2 : ℚ) = (-1, -1, 2, 2) ∧
    scale_bb 0 0 1 1 (3 / 2 : ℚ) ≠ scaleBoxSpec 0 0 1 1 (3 / 2 : ℚ) := by
  refine ⟨by decide, by decide, by decide⟩

/-- C3 (amended): for every box and maskScale, scale_bb returns exactly the spec's
formula (x1 - w*s, y1 - h*s, x2 + w*s, y2 + h*s), with each coordinate rounded to the
nearest integer using round-half-to-even (np.round), not round-half-away-from-zero. -/
theorem C3_scale_formula (x1 y1 x2 y2 ms : ℚ) :
    scale_bb x1 y1 x2 y2 ms = scaleBoxHalfEven x1 y1 x2 y2 ms := rfl

/-- C2 counterexample: with W = 10 the clipping step leaves x1 = 100 unchanged
(x1 is only clamped from below), so x1 is not clamped into [0, W-1]. -/
theorem C2_counterexample :
    (clipCoords 10 10 100 2 200 5).1 = 100 ∧
    ¬ ((clipCoords 10 10 100 2 200 5).1 ≤ 10 - 1) := by
  refine ⟨by decide, by decide⟩

/-- C2 (amended): the clipping step clamps x1, y1 from below at 0 and x2, y2 from above
at W-1 and H-1 (one side each); the clipped output always satisfies
0 ≤ x1 < x2 ≤ W and 0 ≤ y1 < y2 ≤ H, or is zero-area/inverted (x1 ≥ x2 or y1 ≥ y2). -/
theorem C2_clip_invariant (W H x1 y1 x2 y2 : Int) :
    (((clipCoords W H x1 y1 x2 y2).2.2.1 ≤ (clipCoords W H x1 y1 x2 y2).1) ∨
     ((clipCoords W H x1 y1 x2 y2).2.2.2 ≤ (clipCoords W H x1 y1 x2 y2).2.1)) ∨
    (0 ≤ (clipCoords W H x1 y1 x2 y2).1 ∧
     (clipCoords W H x1 y1 x2 y2).1 < (clipCoords W H x1 y1 x2 y2).2.2.1 ∧
     (clipCoords W H x1 y1 x2 y2).2.2.1 ≤ W ∧
     0 ≤ (clipCoords W H x1 y1 x2 y2).2.1 ∧
     (clipCoords W H x1 y1 x2 y2).2.1 < (clipCoords W H x1 y1 x2 y2).2.2.2 ∧
     (clipCoords W H x1 y1 x2 y2).2.2.2 ≤ H) := by
  simp only [clipCoords]
  simp only [Int.min_def, Int.max_def]
  split_ifs <;> omega

unseal Rat.add Rat.mul Rat.sub Rat.inv in
/-- C4 counterexample: in the valid 3-row x 36-column region (0,0,36,3) of a 36 x 3
frame, the relative pixel (1, 35) is strictly outside the claim's inscribed ellipse
(center (3/2, 18), semi-axes (3/2, 18): form 325/324 > 1) and inside the rectangle, yet
it lies inside the ellipse the code draws (skimage with floored center and radii (1, 18):
form 289/324 < 1), so Blur with useEllipse overwrites it — here with blur output 999,
changing it from 0.  The claim's "strictly outside the inscribed ellipse implies
byte-identical" is therefore false on the code for odd region extents. -/
theorem C4_counterexample :
    1 < specEllipseForm 3 36 1 35 ∧
    insideEllipse 3 36 1 35 ∧
    draw_det 36 3 (fun _ _ _ _ => 999) (fun f _ _ => f) (fun _ _ => 0)
      (fun _ _ => 0) 0 0 0 0 36 3 Method.blur true false 0 20 1 35 = 999 ∧
    (999 : Int) ≠ 0 :=
  ⟨by decide, by decide, by decide, by decide⟩

/-- C4 (amended): applying the Blur method with useEllipse = true leaves every pixel of
the rectangle that lies strictly outside the ellipse the code actually draws — the
skimage.draw.ellipse pixel set with center and semi-axes the floored half-extents
(h.fdiv 2, w.fdiv 2) and strict interior — byte-identical to the pre-mask frame, for
every possible cv2.blur output and every valid mask region.  (For odd region extents
this drawn ellipse is not the spec's inscribed ellipse, and the counterexample shows a
pixel strictly outside the spec's ellipse that is overwritten.) -/
theorem C4_blur_ellipse_untouched (W H : Int)
    (blurFn : (Int → Int → Int) → Int × Int → Int → Int → Int)
    (putTextFn : Img → ℚ → Int × Int → Img) (resizedOverlay : Int → Int → Int)
    (frame : Img) (score : ℚ) (det_idx : Nat) (x1 y1 x2 y2 ovcolor msize i j : Int)
    (hx1 : 0 ≤ x1) (hx12 : x1 < x2) (hx2 : x2 ≤ W)
    (hy1 : 0 ≤ y1) (hy12 : y1 < y2) (hy2 : y2 ≤ H)
    (hi1 : y1 ≤ i) (hi2 : i < y2) (hj1 : x1 ≤ j) (hj2 : j < x2)
    (hout : 1 <
      (((i - y1 - (y2 - y1).fdiv 2 : Int) : ℚ) / (((y2 - y1).fdiv 2 : Int) : ℚ)) ^ 2 +
      (((j - x1 - (x2 - x1).fdiv 2 : Int) : ℚ) / (((x2 - x1).fdiv 2 : Int) : ℚ)) ^ 2) :
    draw_det W H blurFn putTextFn resizedOverlay frame score det_idx x1 y1 x2 y2
      Method.blur true false ovcolor msize i j = frame i j := by
  have hys : sliceIdx H y1 y2 = (y1, y2) := sliceIdx_of_valid H y1 y2 hy1 (le_of_lt hy12) hy2
  have hxs : sliceIdx W x1 x2 = (x1, x2) := sliceIdx_of_valid W x1 x2 hx1 (le_of_lt hx12) hx2
  simp only [draw_det, hys, hxs, if_true, Bool.false_eq_true, if_false]
  rw [if_neg]
  rintro ⟨-, -, -, -, hin⟩
  simp only [insideEllipse] at hin
  obtain ⟨-, -, hlt⟩ := hin
  nlinarith [hlt, hout]

unseal Rat.add Rat.mul Rat.sub Rat.inv in
/-- C4 witness: in a 10 x 10 frame with mask region (0,0,10,10), the corner pixel (0,0)
is strictly outside the ellipse and keeps its value whatever cv2.blur returns. -/
theorem C4_witness :
    draw_det 10 10 (fun _ _ _ _ => 999) (fun f _ _ => f) (fun _ _ => 0)
      (fun i j => i + j) 0 0 0 0 10 10 Method.blur true false 0 20 0 0 =
    (fun i j : Int => i + j) 0 0 :=
  C4_blur_ellipse_untouched 10 10 (fun _ _ _ _ => 999) (fun f _ _ => f) (fun _ _ => 0)
    (fun i j => i + j) 0 0 0 0 10 10 0 20 0 0
    (by decide) (by decide) (by decide) (by decide) (by decide) (by decide)
    (by decide) (by decide) (by decide) (by decide) (by decide)

/- mosaic machinery: the inner fold writes only columns at or right of the current cell
start and rows inside the current band; the cell containing the target pixel is written
exactly once, with a color read before any write could reach it. -/

theorem mosaicInner_col_lt (W H x2 y2 ms y : Int) (hms : 1 ≤ ms) :
    ∀ (fuel : Nat) (a : Int) (g : Img) (r c : Int), c < a →
      ((pyRangeAux fuel a x2 ms).foldl (mosaicCell W H x2 y2 ms y) g) r c = g r c := by
  intro fuel
  induction fuel with
  | zero => intro a g r c _; rfl
  | succ fl ih =>
    intro a g r c hc
    by_cases hab : a < x2
    · simp only [pyRangeAux, if_pos hab, List.foldl_cons]
      rw [ih (a + ms) _ r c (by omega)]
      simp only [mosaicCell, rectFill]
      rw [if_neg]
      rintro ⟨-, -, -, -, -, -, hminc, -⟩
      simp only [Int.min_def] at hminc
      split_ifs at hminc <;> omega
    · simp only [pyRangeAux, if_neg hab, List.foldl_nil]

theorem mosaicInner_row_out (W H x2 y2 ms y : Int) (hms : 1 ≤ ms) (hy : y < y2) :
    ∀ (fuel : Nat) (a : Int) (g : Img) (r c : Int),
      (r < y ∨ min y2 (y + ms - 1) < r) →
      ((pyRangeAux fuel a x2 ms).foldl (mosaicCell W H x2 y2 ms y) g) r c = g r c := by
  intro fuel
  induction fuel with
  | zero => intro a g r c _; rfl
  | succ fl ih =>
    intro a g r c hr
    by_cases hab : a < x2
    · simp only [pyRangeAux, if_pos hab, List.foldl_cons]
      rw [ih (a + ms) _ r c hr]
      simp only [mosaicCell, rectFill]
      rw [if_neg]
      rintro ⟨-, -, -, -, hminr, hmaxr, -, -⟩
      simp only [Int.min_def, Int.max_def] at hminr hmaxr hr
      split_ifs at hminr hmaxr hr <;> omega
    · simp only [pyRangeAux, if_neg hab, List.foldl_nil]

theorem mosaicInner_correct (W H x2 y2 ms y cx i j : Int) (f : Img)
    (hms : 1 ≤ ms) (hy : y < y2) (hcx2 : cx < x2)
    (hi1 : y ≤ i) (hi2 : i ≤ min y2 (y + ms - 1))
    (hj1 : cx ≤ j) (hj2 : j ≤ min x2 (cx + ms - 1))
    (hiH : 0 ≤ i) (hiH2 : i < H) (hjW : 0 ≤ j) (hjW2 : j < W) :
    ∀ (fuel : Nat) (a : Int) (g : Img),
      (x2 - a).toNat ≤ fuel → a ≤ cx → ms ∣ (cx - a) →
      (∀ r c, y ≤ r → a ≤ c → g r c = f r c) →
      ((pyRangeAux fuel a x2 ms).foldl (mosaicCell W H x2 y2 ms y) g) i j = f y cx := by
  intro fuel
  induction fuel with
  | zero => intro a g hfuel ha hdvd hagree; omega
  | succ fl ih =>
    intro a g hfuel ha hdvd hagree
    have hax2 : a < x2 := by omega
    simp only [pyRangeAux, if_pos hax2, List.foldl_cons]
    by_cases heq : a = cx
    · subst heq
      rw [mosaicInner_col_lt W H x2 y2 ms y hms fl (a + ms) _ i j (by
        simp only [Int.min_def] at hj2
        split_ifs at hj2 <;> omega)]
      simp only [mosaicCell, rectFill]
      rw [if_pos]
      · exact hagree y a le_rfl le_rfl
      · refine ⟨hiH, hiH2, hjW, hjW2, ?_, ?_, ?_, ?_⟩ <;>
          · simp only [Int.min_def, Int.max_def] at hi2 hj2 ⊢
            split_ifs at hi2 hj2 ⊢ <;> omega
    · have hstep : a + ms ≤ cx := by
        have hpos : 0 < cx - a := by omega
        have := Int.le_of_dvd hpos hdvd
        omega
      have hdvd' : ms ∣ cx - (a + ms) := by
        have he : cx - (a + ms) = (cx - a) - ms := by ring
        rw [he]
        exact dvd_sub hdvd dvd_rfl
      refine ih (a + ms) _ (by omega) (by omega) hdvd' ?_
      intro r c hyr hac
      simp only [mosaicCell, rectFill]
      rw [if_neg]
      · exact hagree r c hyr (by omega)
      · rintro ⟨-, -, -, -, -, -, -, hmaxc⟩
        simp only [Int.min_def, Int.max_def] at hmaxc
        split_ifs at hmaxc <;> omega

theorem mosaicOuter_row_lt (W H x1 x2 y2 ms : Int) (hms : 1 ≤ ms) :
    ∀ (fuel : Nat) (Y : Int) (g : Img) (r c : Int), r < Y →
      ((pyRangeAux fuel Y y2 ms).foldl (fun g y => mosaicRow W H x1 x2 y2 ms y g) g) r c =
        g r c := by
  intro fuel
  induction fuel with
  | zero => intro Y g r c _; rfl
  | succ fl ih =>
    intro Y g r c hr
    by_cases hY : Y < y2
    · simp only [pyRangeAux, if_pos hY, List.foldl_cons]
      rw [ih (Y + ms) _ r c (by omega)]
      simp only [mosaicRow, pyRange]
      exact mosaicInner_row_out W H x2 y2 ms Y hms hY _ x1 g r c (Or.inl hr)
    · simp only [pyRangeAux, if_neg hY, List.foldl_nil]

theorem mosaicOuter_correct (W H x1 x2 y2 ms cx cy i j : Int) (f : Img)
    (hms : 1 ≤ ms) (hcx1 : x1 ≤ cx) (hcx2 : cx < x2) (hdx : ms ∣ cx - x1)
    (hcy2 : cy < y2)
    (hi1 : cy ≤ i) (hi2 : i ≤ min y2 (cy + ms - 1))
    (hj1 : cx ≤ j) (hj2 : j ≤ min x2 (cx + ms - 1))
    (hiH : 0 ≤ i) (hiH2 : i < H) (hjW : 0 ≤ j) (hjW2 : j < W) :
    ∀ (fuel : Nat) (Y : Int) (g : Img),
      (y2 - Y).toNat ≤ fuel → Y ≤ cy → ms ∣ (cy - Y) →
      (∀ r c, Y ≤ r → g r c = f r c) →
      ((pyRangeAux fuel Y y2 ms).foldl (fun g y => mosaicRow W H x1 x2 y2 ms y g) g) i j =
        f cy cx := by
  intro fuel
  induction fuel with
  | zero => intro Y g hfuel hY hdvd hagree; omega
  | succ fl ih =>
    intro Y g hfuel hY hdvd hagree
    have hYy2 : Y < y2 := by omega
    simp only [pyRangeAux, if_pos hYy2, List.foldl_cons]
    by_cases heq : Y = cy
    · subst heq
      rw [mosaicOuter_row_lt W H x1 x2 y2 ms hms fl (Y + ms) _ i j (by
        simp only [Int.min_def] at hi2
        split_ifs at hi2 <;> omega)]
      simp only [mosaicRow, pyRange]
      exact mosaicInner_correct W H x2 y2 ms Y cx i j f hms hYy2 hcx2 hi1 hi2 hj1 hj2
        hiH hiH2 hjW hjW2 _ x1 g le_rfl hcx1 hdx (fun r c hr hc => hagree r c hr)
    · have hstep : Y + ms ≤ cy := by
        have hpos : 0 < cy - Y := by omega
        have := Int.le_of_dvd hpos hdvd
        omega
      have hdvd' : ms ∣ cy - (Y + ms) := by
        have he : cy - (Y + ms) = (cy - Y) - ms := by ring
        rw [he]
        exact dvd_sub hdvd dvd_rfl
      refine ih (Y + ms) _ (by omega) (by omega) hdvd' ?_
      intro r c hYr
      simp only [mosaicRow, pyRange]
      rw [mosaicInner_row_out W H x2 y2 ms Y hms hYy2 _ x1 g r c (by
        right
        simp only [Int.min_def]
        split_ifs <;> omega)]
      exact hagree r c (by omega)

/-- Full characterization of one mosaic cell: within the frame, every pixel of the cell
with top-left (cy, cx) (clamped fill [cy, min y2 (cy+ms-1)] x [cx, min x2 (cx+ms-1)])
ends up with the pre-mask color at (cy, cx). -/
theorem mosaicApply_cell (W H : Int) (f : Img) (x1 y1 x2 y2 ms cx cy i j : Int)
    (hms : 1 ≤ ms)
    (hcx1 : x1 ≤ cx) (hcx2 : cx < x2) (hdx : ms ∣ cx - x1)
    (hcy1 : y1 ≤ cy) (hcy2 : cy < y2) (hdy : ms ∣ cy - y1)
    (hi1 : cy ≤ i) (hi2 : i ≤ min y2 (cy + ms - 1))
    (hj1 : cx ≤ j) (hj2 : j ≤ min x2 (cx + ms - 1))
    (hiH : 0 ≤ i) (hiH2 : i < H) (hjW : 0 ≤ j) (hjW2 : j < W) :
    mosaicApply W H f x1 y1 x2 y2 ms i j = f cy cx := by
  have h := mosaicOuter_correct W H x1 x2 y2 ms cx cy i j f hms hcx1 hcx2 hdx hcy2
    hi1 hi2 hj1 hj2 hiH hiH2 hjW hjW2 ((y2 - y1).toNat) y1 f le_rfl hcy1 hdy
    (fun _ _ _ => rfl)
  simpa only [mosaicApply, pyRange] using h

/-- An inverted or zero-area region makes the mosaic loop a no-op: the row range or
every column range is empty. -/
theorem mosaicApply_degenerate (W H : Int) (f : Img) (x1 y1 x2 y2 ms : Int)
    (h : x2 ≤ x1 ∨ y2 ≤ y1) : mosaicApply W H f x1 y1 x2 y2 ms = f := by
  rcases h with h | h
  · have hinner : ∀ (y : Int) (g : Img), mosaicRow W H x1 x2 y2 ms y g = g := by
      intro y g
      simp only [mosaicRow, pyRange]
      rw [Int.toNat_eq_zero.mpr (by omega)]
      rfl
    have houter : ∀ (l : List Int) (g : Img),
        l.foldl (fun g y => mosaicRow W H x1 x2 y2 ms y g) g = g := by
      intro l
      induction l with
      | nil => intro g; rfl
      | cons hd tl ih =>
        intro g
        rw [List.foldl_cons, hinner hd g]
        exact ih g
    simpa only [mosaicApply] using houter _ f
  · simp only [mosaicApply, pyRange]
    rw [Int.toNat_eq_zero.mpr (by omega)]
    rfl

/-- C5: the Mosaic method partitions the region into a grid of mosaicSize x mosaicSize
cells starting at x1, y1 plus multiples of mosaicSize, the last cell per row and column
clamped at the region bounds x2, y2 (inclusive, cv2.rectangle endpoint semantics); after
application every pixel of a cell equals the color of that cell's top-left pixel in the
pre-mask frame. -/
theorem C5_mosaic_cells (W H : Int)
    (blurFn : (Int → Int → Int) → Int × Int → Int → Int → Int)
    (putTextFn : Img → ℚ → Int × Int → Img) (resizedOverlay : Int → Int → Int)
    (f : Img) (score : ℚ) (det_idx : Nat)
    (x1 y1 x2 y2 ovcolor ms cx cy i j : Int) (ell : Bool)
    (hms : 1 ≤ ms)
    (hcx1 : x1 ≤ cx) (hcx2 : cx < x2) (hdx : ms ∣ cx - x1)
    (hcy1 : y1 ≤ cy) (hcy2 : cy < y2) (hdy : ms ∣ cy - y1)
    (hi1 : cy ≤ i) (hi2 : i ≤ min y2 (cy + ms - 1))
    (hj1 : cx ≤ j) (hj2 : j ≤ min x2 (cx + ms - 1))
    (hiH : 0 ≤ i) (hiH2 : i < H) (hjW : 0 ≤ j) (hjW2 : j < W) :
    draw_det W H blurFn putTextFn resizedOverlay f score det_idx x1 y1 x2 y2
      Method.mosaic ell false ovcolor ms i j = f cy cx := by
  show mosaicApply W H f x1 y1 x2 y2 ms i j = f cy cx
  exact mosaicApply_cell W H f x1 y1 x2 y2 ms cx cy i j hms hcx1 hcx2 hdx hcy1 hcy2 hdy
    hi1 hi2 hj1 hj2 hiH hiH2 hjW hjW2

/-- C5 witness: 6 x 6 frame with pixel values 10*row + col + 1, region (0,0,4,4),
mosaicSize 3: the clamped last cell with top-left (3,3) covers pixel (4,4), which
receives the pre-mask color of (3,3). -/
theorem C5_witness :
    (1 : Int) ≤ 3 ∧
    draw_det 6 6 (fun _ _ _ _ => 0) (fun f _ _ => f) (fun _ _ => 0)
      (fun a b => 10 * a + b + 1) 0 0 0 0 4 4 Method.mosaic true false 0 3 4 4 =
    (fun a b : Int => 10 * a + b + 1) 3 3 :=
  ⟨by decide,
   C5_mosaic_cells 6 6 (fun _ _ _ _ => 0) (fun f _ _ => f) (fun _ _ => 0)
     (fun a b => 10 * a + b + 1) 0 0 0 0 4 4 0 3 3 3 4 4 true
     (by decide) (by decide) (by decide) ⟨1, by decide⟩ (by decide) (by decide)
     ⟨1, by decide⟩ (by decide) (by decide) (by decide) (by decide) (by decide)
     (by decide) (by decide) (by decide)⟩

unseal Rat.add Rat.mul Rat.sub Rat.inv in
/-- C1 counterexample: the detection (12, 2, 15, 5) in a 10 x 10 frame, with
maskScale = 1, clips to the inverted region (x1, y1, x2, y2) = (12, 2, 9, 5); the claim
says no masking operation is applied and the frame is left unchanged, but with the Solid
method cv2.rectangle normalizes the corners and paints pixel (2, 9) with the fill color
0, changing it from 7. -/
theorem C1_counterexample :
    ((detRegion 10 10 1 ((12 : ℚ), 2, 15, 5, 1)).2.2.1 ≤
      (detRegion 10 10 1 ((12 : ℚ), 2, 15, 5, 1)).1) ∧
    anonymize_frame 10 10 (fun _ _ _ _ => 0) (fun f _ _ => f) (fun _ _ => 0)
      [((12 : ℚ), 2, 15, 5, 1)] (fun _ _ => 7) 1 Method.solid true false 0 20 2 9 = 0 ∧
    (0 : Int) ≠ 7 :=
  ⟨by decide, by decide, by decide⟩

/-- C1 (amended): after scaling and clipping, draw_det is invoked unconditionally (the
caller has no skip of zero-area or inverted regions); a detection whose clipped region
is zero-area or inverted leaves the frame unchanged under the Mosaic and None methods
(their loops or writes are empty), but not in general: under Solid the cv2.rectangle
call still paints clamped boundary pixels, as the counterexample shows. -/
theorem C1_degenerate_region (W H : Int)
    (blurFn : (Int → Int → Int) → Int × Int → Int → Int → Int)
    (putTextFn : Img → ℚ → Int × Int → Img) (resizedOverlay : Int → Int → Int)
    (det : Det) (frame : Img) (mask_scale : ℚ) (ellipse : Bool) (ovcolor msize : Int)
    (h : (detRegion W H mask_scale det).2.2.1 ≤ (detRegion W H mask_scale det).1 ∨
         (detRegion W H mask_scale det).2.2.2 ≤ (detRegion W H mask_scale det).2.1) :
    anonymize_frame W H blurFn putTextFn resizedOverlay [det] frame mask_scale
      Method.mosaic ellipse false ovcolor msize = frame ∧
    anonymize_frame W H blurFn putTextFn resizedOverlay [det] frame mask_scale
      Method.none ellipse false ovcolor msize = frame := by
  constructor
  · show mosaicApply W H frame (detRegion W H mask_scale det).1
      (detRegion W H mask_scale det).2.1 (detRegion W H mask_scale det).2.2.1
      (detRegion W H mask_scale det).2.2.2 msize = frame
    exact mosaicApply_degenerate W H frame _ _ _ _ msize h
  · rfl

unseal Rat.add Rat.mul Rat.sub Rat.inv in
/-- C1 witness: the fully-outside detection (12, 2, 15, 5) clips to an inverted region;
with the Mosaic and None methods the 10 x 10 frame of constant value 7 is unchanged. -/
theorem C1_witness :
    ((detRegion 10 10 1 ((12 : ℚ), 2, 15, 5, 1)).2.2.1 ≤
       (detRegion 10 10 1 ((12 : ℚ), 2, 15, 5, 1)).1 ∨
     (detRegion 10 10 1 ((12 : ℚ), 2, 15, 5, 1)).2.2.2 ≤
       (detRegion 10 10 1 ((12 : ℚ), 2, 15, 5, 1)).2.1) ∧
    (anonymize_frame 10 10 (fun _ _ _ _ => 0) (fun f _ _ => f) (fun _ _ => 0)
        [((12 : ℚ), 2, 15, 5, 1)] (fun _ _ => 7) 1 Method.mosaic true false 0 20 =
      (fun _ _ => 7) ∧
     anonymize_frame 10 10 (fun _ _ _ _ => 0) (fun f _ _ => f) (fun _ _ => 0)
        [((12 : ℚ), 2, 15, 5, 1)] (fun _ _ => 7) 1 Method.none true false 0 20 =
      (fun _ _ => 7)) :=
  ⟨Or.inl (by decide),
   C1_degenerate_region 10 10 (fun _ _ _ _ => 0) (fun f _ _ => f) (fun _ _ => 0)
     ((12 : ℚ), 2, 15, 5, 1) (fun _ _ => 7) 1 true 0 20 (Or.inl (by decide))⟩

/-- C10: for a region inside the frame, Solid paints the corner pixel (row y2, col x2)
with the fill color (cv2.rectangle endpoints are inclusive) and Mosaic's clamped last
cell also reaches it when the cell grid overruns the region, while Blur writes only the
half-open numpy slice and leaves that pixel unchanged for every possible cv2.blur
output: the strategies do not touch the same pixel extent. -/
theorem C10_extent (W H : Int)
    (blurFn : (Int → Int → Int) → Int × Int → Int → Int → Int)
    (putTextFn : Img → ℚ → Int × Int → Img) (resizedOverlay : Int → Int → Int)
    (frame : Img) (score : ℚ) (det_idx : Nat)
    (x1 y1 x2 y2 ovcolor ms cx cy : Int) (ell : Bool)
    (hx1 : 0 ≤ x1) (hx12 : x1 ≤ x2) (hx2 : x2 < W)
    (hy1 : 0 ≤ y1) (hy12 : y1 ≤ y2) (hy2 : y2 < H)
    (hms : 1 ≤ ms)
    (hcx1 : x1 ≤ cx) (hcx2 : cx < x2) (hdx : ms ∣ cx - x1) (hxe : x2 ≤ cx + ms - 1)
    (hcy1 : y1 ≤ cy) (hcy2 : cy < y2) (hdy : ms ∣ cy - y1) (hye : y2 ≤ cy + ms - 1) :
    draw_det W H blurFn putTextFn resizedOverlay frame score det_idx x1 y1 x2 y2
      Method.solid ell false ovcolor ms y2 x2 = ovcolor ∧
    draw_det W H blurFn putTextFn resizedOverlay frame score det_idx x1 y1 x2 y2
      Method.blur ell false ovcolor ms y2 x2 = frame y2 x2 ∧
    draw_det W H blurFn putTextFn resizedOverlay frame score det_idx x1 y1 x2 y2
      Method.mosaic ell false ovcolor ms y2 x2 = frame cy cx := by
  refine ⟨?_, ?_, ?_⟩
  · show rectFill W H frame x1 y1 x2 y2 ovcolor y2 x2 = ovcolor
    simp only [rectFill]
    rw [if_pos]
    refine ⟨by omega, by omega, by omega, by omega, ?_, ?_, ?_, ?_⟩ <;>
      · simp only [Int.min_def, Int.max_def]
        split_ifs <;> omega
  · have hys : sliceIdx H y1 y2 = (y1, y2) :=
      sliceIdx_of_valid H y1 y2 hy1 hy12 (by omega)
    have hxs : sliceIdx W x1 x2 = (x1, x2) :=
      sliceIdx_of_valid W x1 x2 hx1 hx12 (by omega)
    rcases ell with _ | _
    · simp only [draw_det, hys, hxs, Bool.false_eq_true, if_false]
      rw [if_neg]
      rintro ⟨-, hlt, -⟩
      omega
    · simp only [draw_det, hys, hxs, if_true, Bool.false_eq_true, if_false]
      rw [if_neg]
      rintro ⟨-, hlt, -⟩
      omega
  · show mosaicApply W H frame x1 y1 x2 y2 ms y2 x2 = frame cy cx
    refine mosaicApply_cell W H frame x1 y1 x2 y2 ms cx cy y2 x2 hms hcx1 hcx2 hdx
      hcy1 hcy2 hdy (by omega) ?_ (by omega) ?_ (by omega) (by omega) (by omega)
      (by omega) <;>
      · simp only [Int.min_def]
        split_ifs <;> omega

/-- C10 witness: 10 x 10 frame with values row + col + 1, region (2,2,5,5),
mosaicSize 2: at the corner (5,5) Solid paints the fill color 0 and Mosaic paints the
pre-mask color of (4,4), while Blur leaves the original value. -/
theorem C10_witness :
    draw_det 10 10 (fun _ _ _ _ => 0) (fun f _ _ => f) (fun _ _ => 0)
      (fun i j => i + j + 1) 0 0 2 2 5 5 Method.solid true false 0 2 5 5 = 0 ∧
    draw_det 10 10 (fun _ _ _ _ => 0) (fun f _ _ => f) (fun _ _ => 0)
      (fun i j => i + j + 1) 0 0 2 2 5 5 Method.blur true false 0 2 5 5 =
      (fun i j : Int => i + j + 1) 5 5 ∧
    draw_det 10 10 (fun _ _ _ _ => 0) (fun f _ _ => f) (fun _ _ => 0)
      (fun i j => i + j + 1) 0 0 2 2 5 5 Method.mosaic true false 0 2 5 5 =
      (fun i j : Int => i + j + 1) 4 4 :=
  C10_extent 10 10 (fun _ _ _ _ => 0) (fun f _ _ => f) (fun _ _ => 0)
    (fun i j => i + j + 1) 0 0 2 2 5 5 0 2 4 4 true
    (by decide) (by decide) (by decide) (by decide) (by decide) (by decide) (by decide)
    (by decide) (by decide) ⟨1, by decide⟩ (by decide)
    (by decide) (by decide) ⟨1, by decide⟩ (by decide)

unseal Rat.add Rat.mul Rat.sub Rat.inv in
/-- C6 counterexample: process_frame on a store holding one 4 x 4 buffer of constant 7,
with a detection covering (0,0)-(2,2) and the Solid method, returns reference 1, not the
input reference 0; after the call buffer 0 still holds 7 at (0,0) (no masked pixels in
the caller's buffer) while the returned buffer holds the fill color 0 there: the
operation is not an in-place transform of the input buffer. -/
theorem C6_counterexample :
    (process_frame 4 4 (fun _ _ _ _ => 0) (fun f _ _ => f) (fun _ _ => 0)
      [fun _ _ => 7] 0 [((0 : ℚ), 0, 2, 2, 1)] 1 Method.solid true false 0 20).2 ≠ 0 ∧
    ((process_frame 4 4 (fun _ _ _ _ => 0) (fun f _ _ => f) (fun _ _ => 0)
      [fun _ _ => 7] 0 [((0 : ℚ), 0, 2, 2, 1)] 1 Method.solid true false 0 20).1.getD 0
      (fun _ _ => 99)) 0 0 = 7 ∧
    ((process_frame 4 4 (fun _ _ _ _ => 0) (fun f _ _ => f) (fun _ _ => 0)
      [fun _ _ => 7] 0 [((0 : ℚ), 0, 2, 2, 1)] 1 Method.solid true false 0 20).1.getD 1
      (fun _ _ => 99)) 0 0 = 0 ∧
    (7 : Int) ≠ 0 :=
  ⟨by decide, by decide, by decide, by decide⟩

/-- C6 (amended): process_frame copies the input frame, applies the masking to the copy
in place, and returns the copy: the returned reference is the fresh slot (different from
every valid input reference), the caller's buffer is byte-identical to its pre-call
contents, and the returned buffer holds anonymize_frame of the input pixels. -/
theorem C6_copy_semantics (W H : Int)
    (blurFn : (Int → Int → Int) → Int × Int → Int → Int → Int)
    (putTextFn : Img → ℚ → Int × Int → Img) (resizedOverlay : Int → Int → Int)
    (store : List Img) (frameRef : Nat) (dets : List Det) (mask_scale : ℚ)
    (replacewith : Method) (ellipse draw_scores : Bool) (ovcolor mosaicsize : Int)
    (h : frameRef < store.length) :
    (process_frame W H blurFn putTextFn resizedOverlay store frameRef dets mask_scale
        replacewith ellipse draw_scores ovcolor mosaicsize).2 ≠ frameRef ∧
    (process_frame W H blurFn putTextFn resizedOverlay store frameRef dets mask_scale
        replacewith ellipse draw_scores ovcolor mosaicsize).1.getD frameRef
      (fun _ _ => 0) = store.getD frameRef (fun _ _ => 0) ∧
    (process_frame W H blurFn putTextFn resizedOverlay store frameRef dets mask_scale
        replacewith ellipse draw_scores ovcolor mosaicsize).1.getD
      (process_frame W H blurFn putTextFn resizedOverlay store frameRef dets mask_scale
        replacewith ellipse draw_scores ovcolor mosaicsize).2 (fun _ _ => 0) =
      anonymize_frame W H blurFn putTextFn resizedOverlay dets
        (store.getD frameRef (fun _ _ => 0)) mask_scale replacewith ellipse draw_scores
        ovcolor mosaicsize := by
  refine ⟨by simp only [process_frame]; omega, ?_, ?_⟩
  · simp only [process_frame, List.getD_eq_getElem?_getD]
    rw [List.getElem?_set_ne (by omega), List.getElem?_append_left (by omega)]
  · simp only [process_frame, List.getD_eq_getElem?_getD]
    rw [List.getElem?_set_eq_of_lt _ (by
      simp only [List.length_append, List.length_cons, List.length_nil]
      omega)]
    rfl

unseal Rat.add Rat.mul Rat.sub Rat.inv in
/-- C6 witness: the amended statement instantiated on a one-buffer store. -/
theorem C6_witness :
    (0 : Nat) < 1 ∧
    ((process_frame 4 4 (fun _ _ _ _ => 0) (fun f _ _ => f) (fun _ _ => 0)
        [fun _ _ => 7] 0 [((0 : ℚ), 0, 2, 2, 1)] 1 Method.solid true false 0 20).2 ≠ 0 ∧
     (process_frame 4 4 (fun _ _ _ _ => 0) (fun f _ _ => f) (fun _ _ => 0)
        [fun _ _ => 7] 0 [((0 : ℚ), 0, 2, 2, 1)] 1 Method.solid true false 0 20).1.getD 0
       (fun _ _ => 0) = [fun _ _ => (7 : Int)].getD 0 (fun _ _ => 0) ∧
     (process_frame 4 4 (fun _ _ _ _ => 0) (fun f _ _ => f) (fun _ _ => 0)
        [fun _ _ => 7] 0 [((0 : ℚ), 0, 2, 2, 1)] 1 Method.solid true false 0 20).1.getD
       (process_frame 4 4 (fun _ _ _ _ => 0) (fun f _ _ => f) (fun _ _ => 0)
        [fun _ _ => 7] 0 [((0 : ℚ), 0, 2, 2, 1)] 1 Method.solid true false 0 20).2
       (fun _ _ => 0) =
       anonymize_frame 4 4 (fun _ _ _ _ => 0) (fun f _ _ => f) (fun _ _ => 0)
         [((0 : ℚ), 0, 2, 2, 1)] ([fun _ _ => (7 : Int)].getD 0 (fun _ _ => 0)) 1
         Method.solid true false 0 20) :=
  ⟨by decide,
   C6_copy_semantics 4 4 (fun _ _ _ _ => 0) (fun f _ _ => f) (fun _ _ => 0)
     [fun _ _ => 7] 0 [((0 : ℚ), 0, 2, 2, 1)] 1 Method.solid true false 0 20
     (by decide)⟩

theorem videoLoop_runs_out (k : Nat) :
    ∀ (r c : Nat), c + r ≤ k →
      videoLoop (fun m => decide (m < k)) r c = (c + r, false) := by
  intro r
  induction r with
  | zero => intro c hc; rfl
  | succ n ih =>
    intro c hc
    simp only [videoLoop]
    rw [if_pos (by simp; omega)]
    rw [ih (c + 1) (by omega)]
    refine congrArg (fun t => (t, false)) (by omega)

theorem videoLoop_cancelled (k : Nat) :
    ∀ (r c : Nat), c ≤ k → k < c + r →
      videoLoop (fun m => decide (m < k)) r c = (k, true) := by
  intro r
  induction r with
  | zero => intro c hc hk; omega
  | succ n ih =>
    intro c hc hk
    simp only [videoLoop]
    by_cases hck : c < k
    · rw [if_pos (by simpa using hck)]
      exact ih (c + 1) (by omega) (by omega)
    · rw [if_neg (by simpa using hck)]
      have : c = k := by omega
      rw [this]

/-- C7 (amended): if the cancellation flag turns false after exactly k frames have been
written (k less than the stream length), the loop writes exactly k frames, logs the user
stop, and releases reader and writer; but the terminal outcome is the very completion
message a successful run emits ("Video processing completed"), not a distinct Stopped
status. -/
theorem C7_cancellation (n k : Nat) (h : k < n) :
    videoRun n (fun c => decide (c < k)) =
      ⟨k, FinishMsg.videoCompleted, true, true, true⟩ := by
  simp only [videoRun, videoLoop_cancelled k n 0 (Nat.zero_le k) (by omega)]

/-- C7 witness: a 3-frame stream cancelled after 1 written frame. -/
theorem C7_witness :
    (1 : Nat) < 3 ∧
    videoRun 3 (fun c => decide (c < 1)) = ⟨1, FinishMsg.videoCompleted, true, true, true⟩ :=
  ⟨by decide, C7_cancellation 3 1 (by decide)⟩

/-- C7 counterexample: cancelling a 3-frame stream after 1 frame ends with the finish
message of a successful run, which the batch handler classifies as success — the run
does not end in a Stopped status (none exists in the code). -/
theorem C7_counterexample :
    (videoRun 3 (fun c => decide (c < 1))).framesWritten = 1 ∧
    (videoRun 3 (fun c => decide (c < 1))).msg = FinishMsg.videoCompleted ∧
    batchClassify (videoRun 3 (fun c => decide (c < 1))).msg = JobMark.success :=
  ⟨by decide, by decide, by decide⟩

theorem batchLoop_lt (outcomes : Nat → FinishMsg) :
    ∀ (r idx : Nat) (marks : Nat → JobMark) (j : Nat), j < idx →
      batchLoop outcomes r idx marks j = marks j := by
  intro r
  induction r with
  | zero => intro idx marks j _; rfl
  | succ n ih =>
    intro idx marks j hj
    simp only [batchLoop]
    rw [ih (idx + 1) _ j (by omega)]
    simp only [setMark]
    rw [if_neg (by omega)]

theorem batchLoop_get (outcomes : Nat → FinishMsg) :
    ∀ (r idx : Nat) (marks : Nat → JobMark) (i : Nat), idx ≤ i → i < idx + r →
      batchLoop outcomes r idx marks i = batchClassify (outcomes i) := by
  intro r
  induction r with
  | zero => intro idx marks i h1 h2; omega
  | succ n ih =>
    intro idx marks i h1 h2
    simp only [batchLoop]
    by_cases he : i = idx
    · subst he
      rw [batchLoop_lt outcomes n (i + 1) _ i (by omega)]
      simp [setMark]
    · exact ih (idx + 1) _ i (by omega) (by omega)

/-- C8: in a sequential batch with cancellation never requested, every job is marked
from its own outcome — so every job reaches a terminal, non-Pending mark, and a job
whose run emits the failure message is marked Failed, independent of the other jobs'
outcomes (partial-failure isolation). -/
theorem C8_batch_isolation (outcomes : Nat → FinishMsg) (count i : Nat)
    (h : i < count) :
    batchRun outcomes count i = batchClassify (outcomes i) ∧
    batchRun outcomes count i ≠ JobMark.pending ∧
    (outcomes i = FinishMsg.processingFailed → batchRun outcomes count i = JobMark.failed) := by
  have hg : batchRun outcomes count i = batchClassify (outcomes i) :=
    batchLoop_get outcomes count 0 _ i (Nat.zero_le i) (by omega)
  refine ⟨hg, ?_, ?_⟩
  · rw [hg]
    cases houtcome : outcomes i <;> simp [batchClassify]
  · intro hf
    rw [hg, hf]
    rfl

/-- C8 witness: a batch of 3 jobs where job 2 (index 1) fails; it is marked Failed and
each of the other jobs is marked from its own (successful) outcome, all non-Pending. -/
theorem C8_witness :
    (1 : Nat) < 3 ∧
    (batchRun (fun n => if n = 1 then FinishMsg.processingFailed else FinishMsg.videoCompleted) 3 1 =
       batchClassify ((fun n => if n = 1 then FinishMsg.processingFailed else FinishMsg.videoCompleted) 1) ∧
     batchRun (fun n => if n = 1 then FinishMsg.processingFailed else FinishMsg.videoCompleted) 3 1 ≠
       JobMark.pending ∧
     ((fun n => if n = 1 then FinishMsg.processingFailed else FinishMsg.videoCompleted) 1 =
        FinishMsg.processingFailed →
      batchRun (fun n => if n = 1 then FinishMsg.processingFailed else FinishMsg.videoCompleted) 3 1 =
        JobMark.failed)) :=
  ⟨by decide,
   C8_batch_isolation (fun n => if n = 1 then FinishMsg.processingFailed else FinishMsg.videoCompleted)
     3 1 (by decide)⟩

end PrivacyLens
